import Mathlib

/-
Verification development for the email-mcp repository: a shallow embedding of
the tool dispatcher (src/index.ts), the Gmail tool handlers (src/gmail.ts) and
the string/codec utilities (src/utils.ts, src/secrets.ts, src/auth.ts).

Modelling conventions:
  - JavaScript strings are modelled by Lean String, with the JS operations
    (trim, toLowerCase, startsWith, replace) re-implemented on the underlying
    character lists so that they evaluate inside the kernel.  JS trim removes
    surrounding whitespace; the model covers the ASCII whitespace characters.
  - JSON values (the untyped argument bags and HTTP response bodies) are an
    inductive Json type; a missing object field is modelled as Option.none.
  - Buffers are lists of byte values (Nat below 256).  Buffer.from(s) is the
    UTF-8 encoder; Buffer.toString is modelled by a lossy UTF-8 decoder that
    emits the replacement character where Node would.
  - fetch is an oracle parameter of type HttpCall to Except String Json:
    fetchJson either returns parsed JSON or throws a message (Except.error).
    Each handler returns the list of HTTP calls it issued, in order.
  - Thrown exceptions that escape a handler are modelled with Except.error;
    results returned as values are ordinary ToolResult values.
-/

/- ===== JS string primitives (modelled on character lists) ===== -/

/-- ASCII whitespace recognised by the model of the JS trim operation. -/
def isJsWhitespace (c : Char) : Bool :=
  c == ' ' || c == '\t' || c == '\n' || c == '\r' || c == '\x0b' || c == '\x0c'

/-- Remove leading and trailing whitespace from a character list. -/
def trimChars (l : List Char) : List Char :=
  ((l.dropWhile isJsWhitespace).reverse.dropWhile isJsWhitespace).reverse

/-- Model of JS String.prototype.trim. -/
def jsTrim (s : String) : String := String.mk (trimChars s.data)

/-- ASCII lower-casing of one character (model of JS toLowerCase on ASCII). -/
def jsLowerChar (c : Char) : Char :=
  if 'A' ≤ c && c ≤ 'Z' then Char.ofNat (c.toNat + 32) else c

/-- Model of JS String.prototype.toLowerCase (ASCII range). -/
def jsToLower (s : String) : String := String.mk (s.data.map jsLowerChar)

/-- Model of JS String.prototype.startsWith. -/
def startsWithStr (s pre : String) : Bool := pre.data.isPrefixOf s.data

/-- Containment of one character list in another (substring test helper). -/
def containsChars : List Char → List Char → Bool
  | [], needle => needle.isEmpty
  | hay@(_ :: t), needle => needle.isPrefixOf hay || containsChars t needle

/-- Substring test on strings. -/
def strContains (hay needle : String) : Bool := containsChars hay.data needle.data

/-- JS truthiness of a string-or-undefined value: undefined and "" are falsy. -/
def truthyS : Option String → Bool
  | some s => s != ""
  | none => false

/-- Model of the JS expression a \x7c\x7c b on string-or-undefined values. -/
def jsOrStr (a b : Option String) : Option String := if truthyS a then a else b

/-- Model of the JS expression a \x7c\x7c d where d is a string default. -/
def jsOrD (a : Option String) (d : String) : String :=
  if truthyS a then a.getD d else d

/-- Model of JS Array.prototype.join with a separator. -/
def joinWith (sep : String) : List String → String
  | [] => ""
  | [x] => x
  | x :: rest => x ++ sep ++ joinWith sep rest

/-- Remove every trailing backslash: model of replace with the regex
anchored backslash-run-at-end pattern used by getString. -/
def dropTrailingBackslashes (s : String) : String :=
  String.mk (s.data.reverse.dropWhile (fun c => c == '\\')).reverse

/- ===== JSON values ===== -/

/- JSON values, also standing in for the untyped JS argument values.
Arrays and objects carry their own list spines (JsonList, JsonProps) so that
all recursion over JSON stays structural and kernel-evaluable. -/
mutual
inductive Json where
  | null : Json
  | bool : Bool → Json
  | num : Int → Json
  | str : String → Json
  | arr : JsonList → Json
  | obj : JsonProps → Json
inductive JsonList where
  | nil : JsonList
  | cons : Json → JsonList → JsonList
inductive JsonProps where
  | nil : JsonProps
  | cons : String → Json → JsonProps → JsonProps
end

/-- View a JsonList as an ordinary list. -/
def JsonList.toList : JsonList → List Json
  | .nil => []
  | .cons j rest => j :: JsonList.toList rest

/-- Build a JsonList from an ordinary list. -/
def JsonList.ofList : List Json → JsonList
  | [] => .nil
  | j :: rest => .cons j (JsonList.ofList rest)

/-- Build a JsonProps from an ordinary association list. -/
def JsonProps.ofList : List (String × Json) → JsonProps
  | [] => .nil
  | kv :: rest => .cons kv.1 kv.2 (JsonProps.ofList rest)

/-- Object literal helper. -/
def jObj (kvs : List (String × Json)) : Json := Json.obj (JsonProps.ofList kvs)

/-- Array literal helper. -/
def jArr (l : List Json) : Json := Json.arr (JsonList.ofList l)

/-- Tool-call argument bags: string-keyed JSON values. -/
abbrev Args : Type := List (String × Json)

/-- Read one argument; a missing key is undefined, modelled as Json.null
(getString and getNumber treat null and undefined alike). -/
def argsGet (args : Args) (k : String) : Json :=
  match List.find? (fun kv => kv.1 == k) args with
  | some kv => kv.2
  | none => Json.null

/-- First binding of a key in an object body (the JS property lookup). -/
def propsFind : JsonProps → String → Option Json
  | .nil, _ => none
  | .cons k v rest, key => if k == key then some v else propsFind rest key

/-- Field access on a JSON object; none models undefined. -/
def jsonField : Json → String → Option Json
  | .obj kvs, k => propsFind kvs k
  | _, _ => none

/-- Keep a JSON value only when it is a string. -/
def asStr : Option Json → Option String
  | some (.str s) => some s
  | _ => none

/-- JS truthiness of a JSON value. -/
def jsTruthyJson : Json → Bool
  | .null => false
  | .bool b => b
  | .num n => n != 0
  | .str s => s != ""
  | .arr _ => true
  | .obj _ => true

/-- Uppercase hexadecimal digit. -/
def hexDigitUpper (n : Nat) : Char :=
  if n < 10 then Char.ofNat (48 + n) else Char.ofNat (55 + n)

/-- Lowercase hexadecimal digit (JSON string escapes use lowercase). -/
def hexDigitLower (n : Nat) : Char :=
  if n < 10 then Char.ofNat (48 + n) else Char.ofNat (87 + n)

/-- Decimal digit character. -/
def digitChar (n : Nat) : Char := Char.ofNat (48 + n)

/-- Decimal rendering of a natural number (fuelled; fuel n + 1 suffices). -/
def natToStrAux : Nat → Nat → List Char
  | 0, _ => []
  | fuel + 1, n =>
    if n < 10 then [digitChar n]
    else natToStrAux fuel (n / 10) ++ [digitChar (n % 10)]

/-- Decimal rendering of an integer: model of JS String(n) on integers. -/
def intToStr : Int → String
  | .ofNat m => String.mk (natToStrAux (m + 1) m)
  | .negSucc m => "-" ++ String.mk (natToStrAux (m + 2) (m + 1))

/-- JSON string escaping of one character. -/
def jsonEscapeChar (c : Char) : List Char :=
  if c = '"' then ['\\', '"']
  else if c = '\\' then ['\\', '\\']
  else if c = '\n' then ['\\', 'n']
  else if c = '\r' then ['\\', 'r']
  else if c = '\t' then ['\\', 't']
  else if c = '\x08' then ['\\', 'b']
  else if c = '\x0c' then ['\\', 'f']
  else if c.toNat < 32 then
    ['\\', 'u', '0', '0', hexDigitLower (c.toNat / 16), hexDigitLower (c.toNat % 16)]
  else [c]

/-- Quote and escape a string as a JSON string literal. -/
def jsonQuote (s : String) : String :=
  "\"" ++ String.mk (s.data.flatMap jsonEscapeChar) ++ "\""

/- Model of JSON.stringify on the Json type (mutual with the renderings of
array bodies and object bodies). -/
mutual
def jsonStringify : Json → String
  | .null => "null"
  | .bool b => if b then "true" else "false"
  | .num n => intToStr n
  | .str s => jsonQuote s
  | .arr l => "[" ++ jsonStringifyList l ++ "]"
  | .obj kvs => "\x7b" ++ jsonStringifyProps kvs ++ "\x7d"
def jsonStringifyList : JsonList → String
  | .nil => ""
  | .cons j .nil => jsonStringify j
  | .cons j rest => jsonStringify j ++ "," ++ jsonStringifyList rest
def jsonStringifyProps : JsonProps → String
  | .nil => ""
  | .cons k v .nil => jsonQuote k ++ ":" ++ jsonStringify v
  | .cons k v rest => jsonQuote k ++ ":" ++ jsonStringify v ++ "," ++ jsonStringifyProps rest
end

/- ===== UTF-8 (model of Buffer.from(string) / Buffer.toString("utf8")) ===== -/

/-- UTF-8 encoding of one Unicode code point. -/
def utf8EncodeChar (n : Nat) : List Nat :=
  if n < 0x80 then [n]
  else if n < 0x800 then [0xC0 + n / 64, 0x80 + n % 64]
  else if n < 0x10000 then [0xE0 + n / 4096, 0x80 + n / 64 % 64, 0x80 + n % 64]
  else [0xF0 + n / 0x40000, 0x80 + n / 4096 % 64, 0x80 + n / 64 % 64, 0x80 + n % 64]

/-- UTF-8 encoding of a character list: model of Buffer.from on a JS string. -/
def utf8Encode : List Char → List Nat
  | [] => []
  | c :: cs => utf8EncodeChar c.toNat ++ utf8Encode cs

/-- Continuation byte test. -/
def isContByte (b : Nat) : Bool := 0x80 ≤ b && b < 0xC0

/-- Unicode replacement character emitted by Node for malformed sequences. -/
def replacementChar : Char := '�'

/-- Lossy UTF-8 decoding, fuelled (fuel = list length suffices: every step
consumes at least one byte).  Malformed input yields the replacement
character, as Buffer.toString("utf8") does; on output of utf8Encode the
original characters are recovered exactly. -/
def utf8DecodeLossyF : Nat → List Nat → List Char
  | 0, _ => []
  | _, [] => []
  | fuel + 1, b :: rest =>
    if b < 0x80 then Char.ofNat b :: utf8DecodeLossyF fuel rest
    else if b < 0xC2 then replacementChar :: utf8DecodeLossyF fuel rest
    else if b < 0xE0 then
      match rest with
      | b2 :: rest2 =>
        if isContByte b2 then
          Char.ofNat ((b - 0xC0) * 64 + (b2 - 0x80)) :: utf8DecodeLossyF fuel rest2
        else replacementChar :: utf8DecodeLossyF fuel rest
      | [] => [replacementChar]
    else if b < 0xF0 then
      match rest with
      | b2 :: b3 :: rest3 =>
        if isContByte b2 && isContByte b3 then
          let n := (b - 0xE0) * 4096 + (b2 - 0x80) * 64 + (b3 - 0x80)
          if 0x800 ≤ n && (n < 0xD800 || 0xE000 ≤ n) then
            Char.ofNat n :: utf8DecodeLossyF fuel rest3
          else replacementChar :: utf8DecodeLossyF fuel rest3
        else replacementChar :: utf8DecodeLossyF fuel rest
      | _ => [replacementChar]
    else if b < 0xF5 then
      match rest with
      | b2 :: b3 :: b4 :: rest4 =>
        if isContByte b2 && isContByte b3 && isContByte b4 then
          let n := (b - 0xF0) * 0x40000 + (b2 - 0x80) * 4096 + (b3 - 0x80) * 64 + (b4 - 0x80)
          if 0x10000 ≤ n && n < 0x110000 then
            Char.ofNat n :: utf8DecodeLossyF fuel rest4
          else replacementChar :: utf8DecodeLossyF fuel rest4
        else replacementChar :: utf8DecodeLossyF fuel rest
      | _ => [replacementChar]
    else replacementChar :: utf8DecodeLossyF fuel rest

/-- Lossy UTF-8 decoding of a byte list. -/
def utf8DecodeLossy (l : List Nat) : List Char := utf8DecodeLossyF l.length l

/- ===== Base64 / base64url (src/secrets.ts base64UrlEncode, base64UrlDecode) ===== -/

/-- The standard base64 alphabet. -/
def b64Alphabet : List Char :=
  "ABCDEFGHIJKLMNOPQRSTUVWXYZabcdefghijklmnopqrstuvwxyz0123456789+/".data

/-- Character of a sextet value. -/
def sextetChar (n : Nat) : Char := b64Alphabet.getD n 'A'

/-- Sextet value of an alphabet character. -/
def charSextet (c : Char) : Option Nat := List.findIdx? (fun a => a == c) b64Alphabet

/-- Standard base64 encoding of a byte list, with padding:
model of Buffer.toString("base64"). -/
def b64EncodeChunks : List Nat → List Char
  | [] => []
  | [b1] => [sextetChar (b1 / 4), sextetChar (b1 % 4 * 16), '=', '=']
  | [b1, b2] =>
    [sextetChar (b1 / 4), sextetChar (b1 % 4 * 16 + b2 / 16), sextetChar (b2 % 16 * 4), '=']
  | b1 :: b2 :: b3 :: rest =>
    sextetChar (b1 / 4) :: sextetChar (b1 % 4 * 16 + b2 / 16) ::
      sextetChar (b2 % 16 * 4 + b3 / 64) :: sextetChar (b3 % 64) :: b64EncodeChunks rest

/-- Strip the trailing run of padding characters: model of replace with the
anchored padding-run regex. -/
def stripTrailingEq (l : List Char) : List Char :=
  (l.reverse.dropWhile (fun c => c == '=')).reverse

/-- The url-safe substitution applied by base64UrlEncode. -/
def urlSafeChar (c : Char) : Char :=
  if c = '+' then '-' else if c = '/' then '_' else c

/-- base64UrlEncode from src/secrets.ts: UTF-8 bytes, standard base64,
plus to minus, slash to underscore, trailing padding stripped. -/
def base64UrlEncode (s : String) : String :=
  String.mk (stripTrailingEq ((b64EncodeChunks (utf8Encode s.data)).map urlSafeChar))

/-- The inverse substitution applied by base64UrlDecode before decoding. -/
def unUrlSafeChar (c : Char) : Char :=
  if c = '-' then '+' else if c = '_' then '/' else c

/-- Pad with '=' up to the next multiple of four: the padEnd step of
base64UrlDecode. -/
def padTo4 (l : List Char) : List Char :=
  l ++ List.replicate ((l.length + 3) / 4 * 4 - l.length) '='

/-- Characters Node keeps when base64-decoding (alphabet and padding);
everything else is skipped. -/
def cleanB64 (l : List Char) : List Char :=
  l.filter (fun c => (charSextet c).isSome || c == '=')

/-- Base64 decoding by quads, with '=' terminating a quad:
model of Buffer.from(padded, "base64"). -/
def b64DecodeQuads : List Char → List Nat
  | c1 :: c2 :: c3 :: c4 :: rest =>
    let s1 := (charSextet c1).getD 0
    let s2 := (charSextet c2).getD 0
    if c3 = '=' then [s1 * 4 + s2 / 16]
    else
      let s3 := (charSextet c3).getD 0
      if c4 = '=' then [s1 * 4 + s2 / 16, s2 % 16 * 16 + s3 / 4]
      else
        let s4 := (charSextet c4).getD 0
        (s1 * 4 + s2 / 16) :: (s2 % 16 * 16 + s3 / 4) :: (s3 % 4 * 64 + s4) :: b64DecodeQuads rest
  | [c1, c2, c3] =>
    let s1 := (charSextet c1).getD 0
    let s2 := (charSextet c2).getD 0
    if c3 = '=' then [s1 * 4 + s2 / 16]
    else [s1 * 4 + s2 / 16, s2 % 16 * 16 + (charSextet c3).getD 0 / 4]
  | [c1, c2] => [(charSextet c1).getD 0 * 4 + (charSextet c2).getD 0 / 16]
  | _ => []

/-- base64UrlDecode from src/secrets.ts: minus to plus, underscore to slash,
pad with '=' up to a multiple of four, then base64-decode and read the bytes
as UTF-8. -/
def base64UrlDecode (s : String) : String :=
  let normalized := s.data.map unUrlSafeChar
  String.mk (utf8DecodeLossy (b64DecodeQuads (cleanB64 (padTo4 normalized))))

/- ===== HTML entity decoding (src/secrets.ts decodeHtmlEntities) ===== -/

/-- ASCII letter test (the named-entity alternative of the regex). -/
def isAsciiLetter (c : Char) : Bool :=
  ('a' ≤ c && c ≤ 'z') || ('A' ≤ c && c ≤ 'Z')

/-- Hexadecimal digit test (the hex alternative of the regex). -/
def isHexDigitCh (c : Char) : Bool :=
  ('0' ≤ c && c ≤ '9') || ('a' ≤ c && c ≤ 'f') || ('A' ≤ c && c ≤ 'F')

/-- Decimal digit test. -/
def isDecDigitCh (c : Char) : Bool := '0' ≤ c && c ≤ '9'

/-- Value of a hexadecimal digit. -/
def hexDigitVal (c : Char) : Nat :=
  if '0' ≤ c && c ≤ '9' then c.toNat - 48
  else if 'a' ≤ c && c ≤ 'f' then c.toNat - 87
  else if 'A' ≤ c && c ≤ 'F' then c.toNat - 55
  else 0

/-- Parse hexadecimal digits (model of parseInt with base 16). -/
def parseHexDigits (l : List Char) : Nat :=
  l.foldl (fun acc c => acc * 16 + hexDigitVal c) 0

/-- Parse decimal digits (model of parseInt with base 10). -/
def parseDecDigits (l : List Char) : Nat :=
  l.foldl (fun acc c => acc * 10 + (c.toNat - 48)) 0

/-- The fixed named-entity table of decodeHtmlEntities. -/
def namedEntityRepl (name : String) : Option String :=
  if name = "amp" then some "&"
  else if name = "lt" then some "<"
  else if name = "gt" then some ">"
  else if name = "quot" then some "\""
  else if name = "apos" then some (String.mk ['\''])
  else if name = "nbsp" then some " "
  else none

/-- Replacement for a numeric character reference.  String.fromCodePoint
succeeds below 0x110000 and the result is kept; a failing code point keeps
the matched text (the JS catch branch).  Lone surrogates, which Lean Char
cannot represent, are treated as undecodable as well. -/
def numericEntityRepl (n : Nat) (matchText : List Char) : List Char :=
  if n < 0xD800 || (0xDFFF < n && n < 0x110000) then [Char.ofNat n] else matchText

/-- Try to match one entity immediately after an ampersand.  Returns the
replacement characters and the remaining input, mirroring the regex
alternatives: hex reference, decimal reference, named entity. -/
def tryEntity (l : List Char) : Option (List Char × List Char) :=
  match l with
  | '#' :: 'x' :: rest =>
    let digits := rest.takeWhile isHexDigitCh
    let rest2 := rest.dropWhile isHexDigitCh
    if digits.isEmpty then none
    else
      match rest2 with
      | ';' :: rem =>
        some (numericEntityRepl (parseHexDigits digits)
          ('&' :: '#' :: 'x' :: digits ++ [';']), rem)
      | _ => none
  | '#' :: rest =>
    let digits := rest.takeWhile isDecDigitCh
    let rest2 := rest.dropWhile isDecDigitCh
    if digits.isEmpty then none
    else
      match rest2 with
      | ';' :: rem =>
        some (numericEntityRepl (parseDecDigits digits) ('&' :: '#' :: digits ++ [';']), rem)
      | _ => none
  | rest =>
    let letters := rest.takeWhile isAsciiLetter
    let rest2 := rest.dropWhile isAsciiLetter
    if letters.isEmpty then none
    else
      match rest2 with
      | ';' :: rem =>
        match namedEntityRepl (String.mk letters) with
        | some repl => some (repl.data, rem)
        | none => some ('&' :: letters ++ [';'], rem)
      | _ => none

/-- Left-to-right scan applying tryEntity at each ampersand, fuelled
(fuel = input length suffices: every step consumes at least one character). -/
def scanEntitiesF : Nat → List Char → List Char
  | 0, l => l
  | _, [] => []
  | fuel + 1, c :: rest =>
    if c = '&' then
      match tryEntity rest with
      | some (repl, rem) => repl ++ scanEntitiesF fuel rem
      | none => c :: scanEntitiesF fuel rest
    else c :: scanEntitiesF fuel rest

/-- decodeHtmlEntities from src/secrets.ts. -/
def decodeHtmlEntities (s : String) : String :=
  String.mk (scanEntitiesF s.data.length s.data)

/- ===== MIME payload tree (the GmailPart shape read by src/gmail.ts) ===== -/

/- MessagePart models the duck-typed GmailPart shape: optional mimeType,
optional inline body data (body.data, with a non-string value treated as
absent), child parts, and a header list of optional names and values.
Entries of a parts array that are not objects are skipped by the BFS loop
through its isGmailPart guard; the embedding drops them when converting
from JSON, which is observationally the same for the extractor. -/
inductive MessagePart where
  | mk : Option String → Option String → List MessagePart →
      List (Option String × Option String) → MessagePart

/-- The mimeType field. -/
def MessagePart.mimeType : MessagePart → Option String
  | .mk mt _ _ _ => mt

/-- The inline body data (body.data). -/
def MessagePart.bodyData : MessagePart → Option String
  | .mk _ d _ _ => d

/-- The child parts. -/
def MessagePart.parts : MessagePart → List MessagePart
  | .mk _ _ ps _ => ps

/-- The headers array. -/
def MessagePart.headers : MessagePart → List (Option String × Option String)
  | .mk _ _ _ hs => hs

/-- The match test of the BFS loop: mimeType is exactly "text/plain" and the
part carries truthy inline data. -/
def isPlainTextMatch (p : MessagePart) : Bool :=
  p.mimeType == some "text/plain" && truthyS p.bodyData

/-- Decoding applied to a matched body: base64url decode then HTML entity
decode, exactly as the extractor does at each return site. -/
def decodePartData (s : String) : String := decodeHtmlEntities (base64UrlDecode s)

/-- The BFS work-queue loop of extractPlainText: dequeue from the front,
return on the first text/plain part with data, otherwise enqueue the
children at the back. -/
def bfsFind : List MessagePart → Option MessagePart
  | [] => none
  | p :: queue =>
    if isPlainTextMatch p then some p
    else bfsFind (queue ++ p.parts)
termination_by l => sizeOf l
decreasing_by
  have happ : ∀ (l1 l2 : List MessagePart), sizeOf (l1 ++ l2) + 1 = sizeOf l1 + sizeOf l2 := by
    intro l1 l2
    induction l1 with
    | nil => simp; omega
    | cons h t ih => simp only [List.cons_append, List.cons.sizeOf_spec]; omega
  have hparts : sizeOf p.parts + 2 ≤ sizeOf p := by
    cases p with
    | mk a b ps hs =>
      have ha : 1 ≤ sizeOf a := by cases a <;> simp
      have hb : 1 ≤ sizeOf b := by cases b <;> simp
      have hh : 1 ≤ sizeOf hs := by cases hs <;> simp <;> omega
      simp [MessagePart.parts]
      omega
  have := happ queue p.parts
  simp only [List.cons.sizeOf_spec]
  omega

/-- extractPlainText from src/gmail.ts: a root part with truthy inline data is
decoded directly (whatever its mimeType); otherwise the BFS over the child
parts returns the first text/plain part with data, decoded; null when no such
part exists. -/
def extractPlainText (t : MessagePart) : Option String :=
  if truthyS t.bodyData then some (decodePartData (t.bodyData.getD ""))
  else (bfsFind t.parts).map (fun p => decodePartData (p.bodyData.getD ""))

/-- All children of the parts in a list, in order (one BFS level down). -/
def levelChildren : List MessagePart → List MessagePart
  | [] => []
  | p :: l => p.parts ++ levelChildren l

/-- The parts at a given depth below a frontier: depth 0 is the frontier
itself, and each step descends one level.  Applied to the children of a root,
depth d lists the parts at tree depth d + 1, in BFS visiting order. -/
def subsAtDepth : Nat → List MessagePart → List MessagePart
  | 0, l => l
  | d + 1, l => subsAtDepth d (levelChildren l)

/-- Level-by-level search: the specification-side reformulation of the BFS
queue loop, fuelled by the number of levels still to visit. -/
def findByLevels : Nat → List MessagePart → Option MessagePart
  | 0, _ => none
  | fuel + 1, l =>
    match l.find? isPlainTextMatch with
    | some r => some r
    | none => findByLevels fuel (levelChildren l)

/-- getHeaderValue from src/gmail.ts: first header whose lower-cased name
matches the lower-cased lookup name, returning its (possibly absent) value. -/
def getHeaderValue (payload : Option MessagePart) (headerName : String) : Option String :=
  match payload with
  | none => none
  | some part =>
    match part.headers.find? (fun h =>
        match h.1 with
        | some n => jsToLower n == jsToLower headerName
        | none => false) with
    | some h => h.2
    | none => none

/- ===== Reply composition (create_draft_reply in src/gmail.ts) ===== -/

/-- Reply subject derivation: keep the original when it already starts with
"re:" case-insensitively, otherwise prepend "Re: " and trim the result. -/
def replySubject (originalSubject : String) : String :=
  if startsWithStr (jsToLower originalSubject) "re:" then originalSubject
  else jsTrim ("Re: " ++ originalSubject)

/-- The truthy strings of a list, in order (model of filter(Boolean)). -/
def filterTruthy (l : List (Option String)) : List String :=
  l.filterMap (fun o => if truthyS o then o else none)

/-- References chaining: when the original Message-ID is truthy, join the
truthy members of [References, Message-ID] with spaces; otherwise keep the
original References. -/
def combinedReferences (references messageIdHeader : Option String) : Option String :=
  if truthyS messageIdHeader then
    some (joinWith " " (filterTruthy [references, messageIdHeader]))
  else references

/-- In-Reply-To: the original Message-ID exactly when truthy. -/
def replyInReplyTo (messageIdHeader : Option String) : Option String :=
  if truthyS messageIdHeader then messageIdHeader else none

/-- The header record passed to buildReplyMime (toAddr is the To field). -/
structure ReplyHeaders where
  toAddr : String
  subject : String
  inReplyTo : Option String
  references : Option String
  body : String

/-- buildReplyMime from src/gmail.ts: fixed header lines, the optional
In-Reply-To and References lines when truthy, a blank separator line and the
body, joined with CRLF. -/
def buildReplyMime (h : ReplyHeaders) : String :=
  joinWith "\r\n"
    (["To: " ++ h.toAddr,
      "Content-Type: text/plain; charset=utf-8",
      "MIME-Version: 1.0",
      "Subject: " ++ h.subject] ++
     (if truthyS h.inReplyTo then ["In-Reply-To: " ++ h.inReplyTo.getD ""] else []) ++
     (if truthyS h.references then ["References: " ++ h.references.getD ""] else []) ++
     ["", h.body])

/- ===== Environment, credentials, help text (src/secrets.ts, src/auth.ts) ===== -/

/-- The process environment slots read by the handlers (process.env values;
none models an unset variable). -/
structure Env where
  googleClientId : Option String
  googleClientSecret : Option String
  googleRedirectUri : Option String
  googleAccessToken : Option String
  googleRefreshToken : Option String

/-- getAuthHelpText from src/auth.ts. -/
def getAuthHelpText : String :=
  "Missing access token. Use gmail_get_auth_url to get an authorization URL, " ++
  "then gmail_exchange_code to obtain tokens. Alternatively, pass accessToken " ++
  "or set GOOGLE_ACCESS_TOKEN in secrets.env."

/-- Which credential slots are present (true) without revealing values. -/
structure AuthEnvStatus where
  clientId : Bool
  clientSecret : Bool
  accessToken : Bool
  refreshToken : Bool

/-- Modelled from the spec: getAuthEnvStatus is imported by src/gmail.ts from
the secrets module but its definition is not among the provided sources.  Per
the spec it never fails and reports which of the credential/token environment
values are present, never their values; it is only carried into the details
object of Failure results. -/
def getAuthEnvStatus (env : Env) : AuthEnvStatus :=
  AuthEnvStatus.mk (truthyS env.googleClientId) (truthyS env.googleClientSecret)
    (truthyS env.googleAccessToken) (truthyS env.googleRefreshToken)

/-- The error message thrown by getClientCredentials. -/
def missingCredsMsg : String :=
  "Missing GOOGLE_CLIENT_ID/GOOGLE_CLIENT_SECRET. Add them to secrets.env."

/-- getClientCredentials from src/secrets.ts: throws (Except.error) when
either client value is absent or empty, else returns the pair. -/
def getClientCredentials (env : Env) : Except String (String × String) :=
  match env.googleClientId, env.googleClientSecret with
  | some a, some b => if a == "" || b == "" then .error missingCredsMsg else .ok (a, b)
  | _, _ => .error missingCredsMsg

/-- getString from src/utils.ts and src/secrets.ts: non-strings are absent;
the value is trimmed; an empty trim is absent; trailing backslashes are then
stripped from the trimmed value. -/
def getString (v : Json) : Option String :=
  match v with
  | .str s =>
    let trimmed := jsTrim s
    if trimmed == "" then none else some (dropTrailingBackslashes trimmed)
  | _ => none

/-- getNumber from src/utils.ts and src/secrets.ts: finite numbers only
(every integer of the model is finite). -/
def getNumber (v : Json) : Option Int :=
  match v with
  | .num n => some n
  | _ => none

/-- getAccessToken from src/secrets.ts (lines 35-37): the accessToken
argument read through getString, with the environment token as fallback.
The get_unread_emails and create_draft_reply branches resolve their token
through this lookup; it is total and never throws. -/
def getAccessToken (args : Args) (env : Env) : Option String :=
  jsOrStr (getString (argsGet args "accessToken")) env.googleAccessToken

/- ===== Result envelopes, HTTP calls ===== -/

/-- One content block of a tool result (the type tag is always "text"). -/
structure ContentBlock where
  text : String

/-- The result envelope returned by the handlers. -/
structure ToolResult where
  content : List ContentBlock

/-- A single-text-block result. -/
def textResult (s : String) : ToolResult := ToolResult.mk [ContentBlock.mk s]

/-- JSON rendering of the env status details object. -/
def statusJson (st : AuthEnvStatus) : Json :=
  jObj [("clientId", .bool st.clientId), ("clientSecret", .bool st.clientSecret),
        ("accessToken", .bool st.accessToken), ("refreshToken", .bool st.refreshToken)]

/-- errorResult from src/gmail.ts: a Failure envelope whose single text block
is the JSON of the error message and the details object. -/
def errorResult (message : String) (details : AuthEnvStatus) : ToolResult :=
  textResult (jsonStringify (jObj [("error", .str message), ("details", statusJson details)]))

/-- One outgoing HTTP request issued through fetchJson. -/
structure HttpCall where
  method : String
  url : String
  bearer : Option String
  contentType : Option String
  body : Option String

/-- The fetchJson collaborator: either parsed JSON or a thrown message. -/
def HttpOracle : Type := HttpCall → Except String Json

/- ===== URL building ===== -/

/-- Characters kept verbatim by encodeURIComponent. -/
def isUriUnreserved (c : Char) : Bool :=
  ('a' ≤ c && c ≤ 'z') || ('A' ≤ c && c ≤ 'Z') || ('0' ≤ c && c ≤ '9') ||
  c == '-' || c == '_' || c == '.' || c == '!' || c == '~' || c == '*' ||
  c == '\'' || c == '(' || c == ')'

/-- Percent-encoding of one byte. -/
def byteToPercent (b : Nat) : List Char :=
  ['%', hexDigitUpper (b / 16), hexDigitUpper (b % 16)]

/-- Model of encodeURIComponent. -/
def encodeURIComponent (s : String) : String :=
  String.mk (s.data.flatMap (fun c =>
    if isUriUnreserved c then [c]
    else (utf8EncodeChar c.toNat).flatMap byteToPercent))

/-- Characters kept verbatim by the urlencoded serializer of URLSearchParams. -/
def isFormSafe (c : Char) : Bool :=
  ('a' ≤ c && c ≤ 'z') || ('A' ≤ c && c ≤ 'Z') || ('0' ≤ c && c ≤ '9') ||
  c == '*' || c == '-' || c == '.' || c == '_'

/-- Model of the application/x-www-form-urlencoded serialization of one
string (URLSearchParams): space becomes plus, unsafe bytes are
percent-encoded. -/
def formEncode (s : String) : String :=
  String.mk (s.data.flatMap (fun c =>
    if isFormSafe c then [c]
    else if c = ' ' then ['+']
    else (utf8EncodeChar c.toNat).flatMap byteToPercent))

/-- Serialize a parameter list as a query string. -/
def renderQuery (ps : List (String × String)) : String :=
  joinWith "&" (ps.map (fun kv => formEncode kv.1 ++ "=" ++ formEncode kv.2))

/-- The fixed OAuth token endpoint. -/
def tokenEndpoint : String := "https://oauth2.googleapis.com/token"

/-- The fixed OAuth authorization endpoint. -/
def authEndpoint : String := "https://accounts.google.com/o/oauth2/v2/auth"

/-- Base URL of the per-user Gmail API resources. -/
def gmailUserUrl (userId : String) : String :=
  "https://gmail.googleapis.com/gmail/v1/users/" ++ encodeURIComponent userId

/- ===== Conversion of fetched JSON into the GmailPart shape ===== -/

/-- Header entries of a headers array: non-object entries yield absent names
and values (the header lookup then skips them, as the JS optional chaining
does). -/
def jsonToHeaders : JsonList → List (Option String × Option String)
  | .nil => []
  | .cons j rest =>
    (asStr (jsonField j "name"), asStr (jsonField j "value")) :: jsonToHeaders rest

/-- The converted headers field of an object body. -/
def headersOf (kvs : JsonProps) : List (Option String × Option String) :=
  match propsFind kvs "headers" with
  | some (.arr l) => jsonToHeaders l
  | _ => []

/-- The converted body.data field of an object body. -/
def bodyDataOf (kvs : JsonProps) : Option String :=
  asStr ((propsFind kvs "body").bind (fun b => jsonField b "data"))

/- jsonToPart reads a JSON value the way the handler code reads the payload
object: non-objects are not parts; mimeType and body.data are kept only when
strings; parts and headers are kept only when arrays, with non-object
children of parts dropped (the BFS loop skips them through its isGmailPart
guard).  The parts field is located by walking the property spine so that
the recursion stays structural. -/
mutual
def jsonToPart : Json → Option MessagePart
  | .obj kvs =>
    some (MessagePart.mk
      (asStr (propsFind kvs "mimeType"))
      (bodyDataOf kvs)
      (partsOf kvs)
      (headersOf kvs))
  | _ => none
def partsOf : JsonProps → List MessagePart
  | .nil => []
  | .cons k v rest =>
    if k == "parts" then
      match v with
      | .arr l => jsonToParts l
      | _ => []
    else partsOf rest
def jsonToParts : JsonList → List MessagePart
  | .nil => []
  | .cons j rest =>
    match jsonToPart j with
    | some p => p :: jsonToParts rest
    | none => jsonToParts rest
end

/- ===== The five Gmail tool handlers (src/gmail.ts) ===== -/

/-- The gmail_get_auth_url branch.  The redirect URI is the environment value
when truthy, else the redirectUri argument through getString (env first, as
in the source); the scope array keeps its string members; access_type is
"online" only on exact match, else "offline"; prompt is included only for
the three recognised values.  No HTTP call is issued. -/
def gmailGetAuthUrl (args : Args) (env : Env) : ToolResult :=
  let redirectUri := jsOrStr env.googleRedirectUri (getString (argsGet args "redirectUri"))
  if !(truthyS redirectUri) then
    errorResult "Missing redirectUri. Pass redirectUri or set GOOGLE_REDIRECT_URI in secrets.env."
      (getAuthEnvStatus env)
  else
    match getClientCredentials env with
    | .error msg => errorResult msg (getAuthEnvStatus env)
    | .ok (clientId, _) =>
      let scopes :=
        match argsGet args "scope" with
        | .arr l => l.toList.filterMap (fun j => match j with | .str s => some s | _ => none)
        | _ => []
      let accessType := if getString (argsGet args "accessType") == some "online"
        then "online" else "offline"
      let prompt := getString (argsGet args "prompt")
      let ps :=
        [("client_id", clientId),
         ("redirect_uri", redirectUri.getD ""),
         ("response_type", "code"),
         ("scope", if scopes.length > 0 then joinWith " " scopes
           else "https://www.googleapis.com/auth/gmail.readonly"),
         ("access_type", accessType)] ++
        (if prompt == some "consent" || prompt == some "none" ||
            prompt == some "select_account"
         then [("prompt", prompt.getD "")] else [])
      textResult (authEndpoint ++ "?" ++ renderQuery ps)

/-- The gmail_exchange_code branch: validates code and redirectUri, resolves
client credentials, then POSTs the form-encoded token request; a thrown
fetch error becomes a Failure result. -/
def gmailExchangeCode (args : Args) (env : Env) (oracle : HttpOracle) :
    ToolResult × List HttpCall :=
  let code := getString (argsGet args "code")
  let redirectUri := getString (argsGet args "redirectUri")
  if !(truthyS code) || !(truthyS redirectUri) then
    (errorResult "Missing code or redirectUri." (getAuthEnvStatus env), [])
  else
    match getClientCredentials env with
    | .error msg => (errorResult msg (getAuthEnvStatus env), [])
    | .ok (clientId, clientSecret) =>
      let body := renderQuery
        [("code", code.getD ""), ("client_id", clientId), ("client_secret", clientSecret),
         ("redirect_uri", redirectUri.getD ""), ("grant_type", "authorization_code")]
      let call := HttpCall.mk "POST" tokenEndpoint none
        (some "application/x-www-form-urlencoded") (some body)
      match oracle call with
      | .ok d => (textResult (jsonStringify d), [call])
      | .error msg => (errorResult msg (getAuthEnvStatus env), [call])

/-- The gmail_refresh_access_token branch: the refreshToken argument takes
precedence, the environment token is the fallback; then POSTs the
form-encoded refresh request. -/
def gmailRefreshAccessToken (args : Args) (env : Env) (oracle : HttpOracle) :
    ToolResult × List HttpCall :=
  let refreshToken := jsOrStr (getString (argsGet args "refreshToken")) env.googleRefreshToken
  if !(truthyS refreshToken) then
    (errorResult "Missing refresh token. Set GOOGLE_REFRESH_TOKEN or pass refreshToken."
      (getAuthEnvStatus env), [])
  else
    match getClientCredentials env with
    | .error msg => (errorResult msg (getAuthEnvStatus env), [])
    | .ok (clientId, clientSecret) =>
      let body := renderQuery
        [("refresh_token", refreshToken.getD ""), ("client_id", clientId),
         ("client_secret", clientSecret), ("grant_type", "refresh_token")]
      let call := HttpCall.mk "POST" tokenEndpoint none
        (some "application/x-www-form-urlencoded") (some body)
      match oracle call with
      | .ok d => (textResult (jsonStringify d), [call])
      | .error msg => (errorResult msg (getAuthEnvStatus env), [call])

/-- Object whose fields with absent values are omitted: model of
JSON.stringify skipping undefined properties. -/
def objOfPresent (l : List (String × Option Json)) : Json :=
  jObj (l.filterMap (fun kv => kv.2.map (fun v => (kv.1, v))))

/-- One summary entry of the unread listing, built from a fetched message. -/
def unreadEntry (d : Json) : Json :=
  let payload := (jsonField d "payload").bind jsonToPart
  let decodedText := payload.bind extractPlainText
  objOfPresent
    [("id", jsonField d "id"),
     ("threadId", jsonField d "threadId"),
     ("from", (getHeaderValue payload "From").map Json.str),
     ("subject", (getHeaderValue payload "Subject").map Json.str),
     ("snippet", jsonField d "snippet"),
     ("text", some (match decodedText with | some s => Json.str s | none => Json.null))]

/-- The sequential per-message fetch loop of get_unread_emails: message
details are fetched strictly in list order; the first thrown fetch error
aborts the whole loop (no partial results). -/
def fetchMessagesLoop (userId tok : String) (oracle : HttpOracle) :
    List Json → Except (String × List HttpCall) (List Json × List HttpCall)
  | [] => .ok ([], [])
  | m :: rest =>
    let id := (asStr (jsonField m "id")).getD "undefined"
    let call := HttpCall.mk "GET"
      (gmailUserUrl userId ++ "/messages/" ++ encodeURIComponent id ++ "?" ++
        renderQuery [("format", "full")])
      (some tok) none none
    match oracle call with
    | .error msg => .error (msg, [call])
    | .ok d =>
      match fetchMessagesLoop userId tok oracle rest with
      | .error (msg, calls) => .error (msg, call :: calls)
      | .ok (results, calls) => .ok (unreadEntry d :: results, call :: calls)

/-- The get_unread_emails branch: resolve the access token (Failure with the
OAuth help text and no HTTP call when absent), list unread message ids, then
fetch each message sequentially and summarize. -/
def getUnreadEmails (args : Args) (env : Env) (oracle : HttpOracle) :
    ToolResult × List HttpCall :=
  let accessToken := getAccessToken args env
  if !(truthyS accessToken) then
    (errorResult getAuthHelpText (getAuthEnvStatus env), [])
  else
    let tok := accessToken.getD ""
    let userId := jsOrD (getString (argsGet args "userId")) "me"
    let maxResults := (getNumber (argsGet args "maxResults")).getD 10
    let listCall := HttpCall.mk "GET"
      (gmailUserUrl userId ++ "/messages?" ++
        renderQuery [("q", "is:unread"), ("maxResults", intToStr maxResults)])
      (some tok) none none
    match oracle listCall with
    | .error msg => (errorResult msg (getAuthEnvStatus env), [listCall])
    | .ok listData =>
      let messages :=
        match jsonField listData "messages" with
        | some (.arr l) => l.toList
        | _ => []
      match fetchMessagesLoop userId tok oracle messages with
      | .error (msg, calls) => (errorResult msg (getAuthEnvStatus env), listCall :: calls)
      | .ok (results, calls) =>
        (textResult (jsonStringify (jObj [("messages", jArr results)])), listCall :: calls)

/-- The create_draft_reply branch: resolve the token, validate messageId and
body, fetch the original message metadata, derive the reply headers
(Reply-To before From, subject through replySubject, References chaining,
In-Reply-To), build the CRLF MIME text, base64url-encode it and POST the
draft with the original threadId when truthy. -/
def createDraftReply (args : Args) (env : Env) (oracle : HttpOracle) :
    ToolResult × List HttpCall :=
  let accessToken := getAccessToken args env
  if !(truthyS accessToken) then
    (errorResult getAuthHelpText (getAuthEnvStatus env), [])
  else
    let tok := accessToken.getD ""
    let userId := jsOrD (getString (argsGet args "userId")) "me"
    let body := getString (argsGet args "body")
    let messageId := getString (argsGet args "messageId")
    if !(truthyS messageId) || !(truthyS body) then
      (errorResult "Missing required fields: messageId, body." (getAuthEnvStatus env), [])
    else
      let mcall := HttpCall.mk "GET"
        (gmailUserUrl userId ++ "/messages/" ++ encodeURIComponent (messageId.getD "") ++
          "?" ++ renderQuery
            [("format", "metadata"),
             ("metadataHeaders", "From,Reply-To,Subject,Message-ID,References")])
        (some tok) none none
      match oracle mcall with
      | .error msg => (errorResult msg (getAuthEnvStatus env), [mcall])
      | .ok original =>
        let payload := (jsonField original "payload").bind jsonToPart
        let replyTo := jsOrStr (getHeaderValue payload "Reply-To") (getHeaderValue payload "From")
        if !(truthyS replyTo) then
          (errorResult "Could not determine reply recipient." (getAuthEnvStatus env), [mcall])
        else
          let originalSubject := jsOrD (getHeaderValue payload "Subject") ""
          let subject := replySubject originalSubject
          let messageIdHeader := getHeaderValue payload "Message-ID"
          let references := getHeaderValue payload "References"
          let combined := combinedReferences references messageIdHeader
          let rh := ReplyHeaders.mk (replyTo.getD "") subject
            (replyInReplyTo messageIdHeader)
            (if truthyS combined then combined else none)
            (body.getD "")
          let raw := base64UrlEncode (buildReplyMime rh)
          let draftPayload := jObj
            [("message", jObj
              ([("raw", Json.str raw)] ++
               (match jsonField original "threadId" with
                | some tj => if jsTruthyJson tj then [("threadId", tj)] else []
                | none => [])))]
          let dcall := HttpCall.mk "POST" (gmailUserUrl userId ++ "/drafts") (some tok)
            (some "application/json") (some (jsonStringify draftPayload))
          match oracle dcall with
          | .ok d => (textResult (jsonStringify d), [mcall, dcall])
          | .error msg => (errorResult msg (getAuthEnvStatus env), [mcall, dcall])

/-- handleGmailTool from src/gmail.ts: dispatch on the five Gmail tool names,
returning none (null) for any other name.  The second component lists the
HTTP calls issued. -/
def handleGmailTool (name : String) (args : Args) (env : Env) (oracle : HttpOracle) :
    Option ToolResult × List HttpCall :=
  if name == "gmail_get_auth_url" then (some (gmailGetAuthUrl args env), [])
  else if name == "gmail_exchange_code" then
    let r := gmailExchangeCode args env oracle
    (some r.1, r.2)
  else if name == "gmail_refresh_access_token" then
    let r := gmailRefreshAccessToken args env oracle
    (some r.1, r.2)
  else if name == "get_unread_emails" then
    let r := getUnreadEmails args env oracle
    (some r.1, r.2)
  else if name == "create_draft_reply" then
    let r := createDraftReply args env oracle
    (some r.1, r.2)
  else (none, [])

/-- The CallToolRequestSchema handler of src/index.ts: get_time answers with
the current time text; Gmail tools are delegated to handleGmailTool; any
other name throws an Error (Except.error) with message "Unknown tool: "
followed by the name.  The now parameter stands for the current ISO time. -/
def callTool (now name : String) (args : Args) (env : Env) (oracle : HttpOracle) :
    Except String ToolResult :=
  if name == "get_time" then
    .ok (textResult ("Current time: " ++ now ++ " and the secret word is \"Cryptic\""))
  else
    match handleGmailTool name args env oracle with
    | (some r, _) => .ok r
    | (none, _) => .error ("Unknown tool: " ++ name)

/-- The six tool names of the advertised catalog. -/
def catalogNames : List String :=
  ["get_time", "get_unread_emails", "gmail_get_auth_url", "gmail_exchange_code",
   "gmail_refresh_access_token", "create_draft_reply"]

/- ===== Concrete fixtures used by witnesses and counterexamples ===== -/

/-- An environment with no values set. -/
def envNoneFx : Env := Env.mk none none none none none

/-- An oracle standing for an unreachable network: every fetch throws. -/
def oracleErrFx : HttpOracle := fun _ => .error "offline"

/-- Environment for the auth-url counterexample: client credentials plus a
redirect URI in the environment. -/
def authEnvFx : Env :=
  Env.mk (some "id123") (some "sec456") (some "https://env.example/cb") none none

/-- Arguments for the auth-url counterexample: a per-call redirectUri that
differs from the environment value. -/
def authArgsFx : Args := [("redirectUri", Json.str "https://arg.example/cb")]

/-- The authorization URL produced in the counterexample: the redirect_uri
parameter carries the environment value, not the argument. -/
def authUrlCexExpected : String :=
  "https://accounts.google.com/o/oauth2/v2/auth?client_id=id123&redirect_uri=" ++
  "https%3A%2F%2Fenv.example%2Fcb&response_type=code&scope=" ++
  "https%3A%2F%2Fwww.googleapis.com%2Fauth%2Fgmail.readonly&access_type=offline"

/-- Environment for the draft fixture: credentials and an access token. -/
def draftEnvFx : Env := Env.mk (some "id123") (some "sec456") none (some "tok789") none

/-- Arguments for the draft fixture: the body ends in two backslashes. -/
def draftArgsFx : Args :=
  [("messageId", Json.str "m123"), ("body", Json.str "Hi there\\\\")]

/-- The original message returned by the metadata fetch of the draft fixture. -/
def originalMsgFx : Json :=
  jObj [("threadId", Json.str "t1"),
        ("payload", jObj [("headers", jArr
          [jObj [("name", Json.str "From"), ("value", Json.str "a@b.c")],
           jObj [("name", Json.str "Subject"), ("value", Json.str "Hello")],
           jObj [("name", Json.str "Message-ID"), ("value", Json.str "<m1>")]])])]

/-- The draft-create response of the draft fixture. -/
def draftRespFx : Json := jObj [("id", Json.str "draft1")]

/-- Oracle of the draft fixture: the GET fetch returns the original message,
the POST returns the created draft. -/
def draftOracleFx : HttpOracle := fun call =>
  if call.method == "GET" then .ok originalMsgFx else .ok draftRespFx

/-- A plain-text leaf part with inline data. -/
def mpLeaf (mt d : String) : MessagePart := MessagePart.mk (some mt) (some d) [] []

/-- Tree with a plain-text match among the root children (data is the
base64url of "shallow") and a deeper plain-text match below a multipart
child (data is the base64url of "deep"). -/
def t4Fx : MessagePart :=
  MessagePart.mk none none
    [MessagePart.mk (some "multipart/alternative") none [mpLeaf "text/plain" "ZGVlcA"] [],
     mpLeaf "text/plain" "c2hhbGxvdw"] []

/-- Root-only tree carrying inline data with a non-plain mimeType
(data is the base64url of "<b>"). -/
def t5Fx : MessagePart := MessagePart.mk (some "text/html") (some "PGI-") [] []

/-- Tree with no plain-text part anywhere: one html leaf below the root. -/
def t5wFx : MessagePart :=
  MessagePart.mk none none [MessagePart.mk (some "text/html") (some "PGI-") [] []] []

/- ========================================================================
   Theorems
   ======================================================================== -/

/- ----- General lemmas about the BFS extractor ----- -/

theorem bfsFind_nil : bfsFind [] = none := by
  rw [bfsFind]

theorem bfsFind_cons (p : MessagePart) (queue : List MessagePart) :
    bfsFind (p :: queue) =
      if isPlainTextMatch p then some p else bfsFind (queue ++ p.parts) := by
  rw [bfsFind]

theorem levelChildren_append (a b : List MessagePart) :
    levelChildren (a ++ b) = levelChildren a ++ levelChildren b := by
  induction a with
  | nil => simp [levelChildren]
  | cons p t ih => simp [levelChildren, ih]

theorem bfsFind_split (l : List MessagePart) : ∀ c : List MessagePart,
    bfsFind (l ++ c) =
      match l.find? isPlainTextMatch with
      | some r => some r
      | none => bfsFind (c ++ levelChildren l) := by
  induction l with
  | nil =>
    intro c
    simp [List.find?, levelChildren]
  | cons p t ih =>
    intro c
    cases hp : isPlainTextMatch p with
    | true =>
      simp [List.cons_append, bfsFind_cons, hp, List.find?_cons, levelChildren]
    | false =>
      have step : bfsFind ((p :: t) ++ c) = bfsFind (t ++ (c ++ p.parts)) := by
        rw [List.cons_append, bfsFind_cons, if_neg (by simp [hp]), List.append_assoc]
      rw [step, ih (c ++ p.parts)]
      simp only [List.find?_cons, hp, levelChildren]
      cases t.find? isPlainTextMatch with
      | some r => rfl
      | none => rw [List.append_assoc]

theorem findByLevels_nil : ∀ fuel, findByLevels fuel [] = none := by
  intro fuel
  induction fuel with
  | zero => rfl
  | succ n ih => simp [findByLevels, List.find?, levelChildren, ih]

theorem msgSizeOf_append (l1 l2 : List MessagePart) :
    sizeOf (l1 ++ l2) + 1 = sizeOf l1 + sizeOf l2 := by
  induction l1 with
  | nil => simp; omega
  | cons h t ih => simp only [List.cons_append, List.cons.sizeOf_spec]; omega

theorem msgSizeOf_pos (l : List MessagePart) : 1 ≤ sizeOf l := by
  cases l with
  | nil => simp
  | cons p t => simp; omega

theorem msgPartSizeOf_parts (p : MessagePart) : sizeOf p.parts + 2 ≤ sizeOf p := by
  cases p with
  | mk a b ps hs =>
    have ha : 1 ≤ sizeOf a := by cases a <;> simp
    have hb : 1 ≤ sizeOf b := by cases b <;> simp
    have hh : 1 ≤ sizeOf hs := by cases hs <;> simp <;> omega
    simp [MessagePart.parts]
    omega

theorem levelChildren_sizeOf (l : List MessagePart) :
    sizeOf (levelChildren l) + l.length ≤ sizeOf l := by
  induction l with
  | nil => simp [levelChildren]
  | cons p t ih =>
    have happ := msgSizeOf_append p.parts (levelChildren t)
    have hp := msgPartSizeOf_parts p
    simp only [levelChildren, List.length_cons, List.cons.sizeOf_spec]
    omega

theorem levelChildren_sizeOf_lt (l : List MessagePart) (h : l ≠ []) :
    sizeOf (levelChildren l) < sizeOf l := by
  have := levelChildren_sizeOf l
  have hlen : 1 ≤ l.length := by
    cases l with
    | nil => exact absurd rfl h
    | cons p t => simp
  omega

theorem bfsFind_eq_findByLevels : ∀ fuel (l : List MessagePart), sizeOf l ≤ fuel →
    bfsFind l = findByLevels fuel l := by
  intro fuel
  induction fuel with
  | zero =>
    intro l hl
    exact absurd (Nat.lt_of_lt_of_le Nat.zero_lt_one (msgSizeOf_pos l)) (by omega)
  | succ n ih =>
    intro l hl
    cases l with
    | nil => rw [bfsFind_nil, findByLevels_nil]
    | cons p t =>
      have hsplit := bfsFind_split (p :: t) []
      rw [List.append_nil] at hsplit
      rw [hsplit]
      have hlt := levelChildren_sizeOf_lt (p :: t) (by simp)
      have hrec := ih (levelChildren (p :: t)) (by omega)
      simp only [findByLevels]
      cases (p :: t).find? isPlainTextMatch with
      | some r => rfl
      | none => simpa using hrec

theorem subsAtDepth_nil : ∀ d, subsAtDepth d [] = [] := by
  intro d
  induction d with
  | zero => rfl
  | succ n ih => simpa [subsAtDepth, levelChildren] using ih

theorem subsAtDepth_depth_lt : ∀ (d : Nat) (l : List MessagePart),
    subsAtDepth d l ≠ [] → d < sizeOf l := by
  intro d
  induction d with
  | zero =>
    intro l _
    exact Nat.lt_of_lt_of_le Nat.zero_lt_one (msgSizeOf_pos l)
  | succ n ih =>
    intro l h
    have hne : l ≠ [] := by
      intro he
      subst he
      exact h (by simpa [subsAtDepth] using subsAtDepth_nil n)
    have h2 : subsAtDepth n (levelChildren l) ≠ [] := by simpa [subsAtDepth] using h
    have := ih (levelChildren l) h2
    have := levelChildren_sizeOf_lt l hne
    omega

theorem findByLevels_first_match : ∀ fuel (l : List MessagePart) (dp : Nat) (p : MessagePart),
    p ∈ subsAtDepth dp l → isPlainTextMatch p = true → dp < fuel →
    ∃ dr r, dr ≤ dp ∧
      (∀ d2, d2 < dr → (subsAtDepth d2 l).find? isPlainTextMatch = none) ∧
      (subsAtDepth dr l).find? isPlainTextMatch = some r ∧
      findByLevels fuel l = some r := by
  intro fuel
  induction fuel with
  | zero =>
    intro l dp p _ _ h
    exact absurd h (Nat.not_lt_zero dp)
  | succ n ih =>
    intro l dp p hp hm hlt
    cases hf : l.find? isPlainTextMatch with
    | some r =>
      refine ⟨0, r, Nat.zero_le _, ?_, ?_, ?_⟩
      · intro d2 h2
        exact absurd h2 (Nat.not_lt_zero d2)
      · simpa [subsAtDepth] using hf
      · simp [findByLevels, hf]
    | none =>
      cases dp with
      | zero =>
        have : ¬ isPlainTextMatch p = true :=
          List.find?_eq_none.mp hf p (by simpa [subsAtDepth] using hp)
        exact absurd hm this
      | succ dp2 =>
        have hp2 : p ∈ subsAtDepth dp2 (levelChildren l) := by
          simpa [subsAtDepth] using hp
        obtain ⟨dr, r, h1, h2, h3, h4⟩ :=
          ih (levelChildren l) dp2 p hp2 hm (Nat.lt_of_succ_lt_succ hlt)
        refine ⟨dr + 1, r, by omega, ?_, ?_, ?_⟩
        · intro d2 h2lt
          cases d2 with
          | zero => simpa [subsAtDepth] using hf
          | succ d3 =>
            have : d3 < dr := by omega
            simpa [subsAtDepth] using h2 d3 this
        · simpa [subsAtDepth] using h3
        · simp [findByLevels, hf]
          exact h4

/- ----- Claim C4 ----- -/

/-- C4: for every MessagePart tree whose root carries no inline data and which
contains plain-text leaves with inline data at two different depths, the
extractor returns the decoded data of a first match found by levels: the
matching part it decodes sits at a depth no greater than the shallower of the
two, no strictly shallower level contains any match, and within its level it
is the first match in breadth-first visiting order (List.find? over the
level).  Depth d in subsAtDepth counts levels below the root children. -/
theorem extract_bfs_shallowest (t : MessagePart) (hroot : truthyS t.bodyData = false)
    (dp dq : Nat) (p q : MessagePart)
    (hp : p ∈ subsAtDepth dp t.parts) (hmp : isPlainTextMatch p = true)
    (hq : q ∈ subsAtDepth dq t.parts) (hmq : isPlainTextMatch q = true)
    (hlt : dp < dq) :
    ∃ dr r, dr ≤ dp ∧
      (∀ d2, d2 < dr → (subsAtDepth d2 t.parts).find? isPlainTextMatch = none) ∧
      (subsAtDepth dr t.parts).find? isPlainTextMatch = some r ∧
      extractPlainText t = some (decodePartData (r.bodyData.getD "")) := by
  have hne : subsAtDepth dp t.parts ≠ [] := List.ne_nil_of_mem hp
  have hfuel : dp < sizeOf t.parts := subsAtDepth_depth_lt dp t.parts hne
  obtain ⟨dr, r, h1, h2, h3, h4⟩ :=
    findByLevels_first_match (sizeOf t.parts) t.parts dp p hp hmp hfuel
  refine ⟨dr, r, h1, h2, h3, ?_⟩
  unfold extractPlainText
  rw [if_neg (by simp [hroot])]
  rw [bfsFind_eq_findByLevels (sizeOf t.parts) t.parts (Nat.le_refl _), h4]
  rfl

/-- C4 witness: in the fixture tree the shallow leaf (root child, depth 0 of
subsAtDepth) wins over the deep leaf (depth 1); the conclusion is obtained by
applying the theorem at these concrete parts. -/
theorem extract_bfs_shallowest_witness :
    ∃ dr r, dr ≤ 0 ∧
      (∀ d2, d2 < dr → (subsAtDepth d2 t4Fx.parts).find? isPlainTextMatch = none) ∧
      (subsAtDepth dr t4Fx.parts).find? isPlainTextMatch = some r ∧
      extractPlainText t4Fx = some (decodePartData (r.bodyData.getD "")) :=
  extract_bfs_shallowest t4Fx rfl 0 1
    (mpLeaf "text/plain" "c2hhbGxvdw") (mpLeaf "text/plain" "ZGVlcA")
    (List.Mem.tail _ (List.Mem.head _)) rfl
    (List.Mem.head _) rfl
    (by omega)

/- ----- Claim C5 ----- -/

/-- C5 counterexample: the fixture tree has no part with mimeType
"text/plain" anywhere (its only part is the root, an html part with inline
data, and it has no children), yet the extractor returns the decoded root
data rather than null: the root check of extractPlainText ignores the
mimeType.  This refutes the claim that a tree without any plain-text part
always yields null. -/
theorem extract_root_html_cex :
    t5Fx.mimeType = some "text/html" ∧ t5Fx.parts = [] ∧
    isPlainTextMatch t5Fx = false ∧
    extractPlainText t5Fx = some "<b>" :=
  ⟨rfl, rfl, rfl, rfl⟩

/-- C5 amended: for every tree whose root carries no inline data and in which
no part below the root matches text/plain with inline data, the extractor
returns none. -/
theorem extract_no_match_none (t : MessagePart) (hroot : truthyS t.bodyData = false)
    (hno : ∀ d q, q ∈ subsAtDepth d t.parts → isPlainTextMatch q = false) :
    extractPlainText t = none := by
  have hlevels : ∀ fuel (l : List MessagePart),
      (∀ d q, q ∈ subsAtDepth d l → isPlainTextMatch q = false) →
      findByLevels fuel l = none := by
    intro fuel
    induction fuel with
    | zero => intro l _; rfl
    | succ n ih =>
      intro l hl
      have hf : l.find? isPlainTextMatch = none := by
        apply List.find?_eq_none.mpr
        intro x hx
        simp [hl 0 x (by simpa [subsAtDepth] using hx)]
      simp only [findByLevels, hf]
      exact ih (levelChildren l) (fun d q hq => hl (d + 1) q (by simpa [subsAtDepth] using hq))
  unfold extractPlainText
  rw [if_neg (by simp [hroot])]
  rw [bfsFind_eq_findByLevels (sizeOf t.parts) t.parts (Nat.le_refl _)]
  rw [hlevels (sizeOf t.parts) t.parts hno]
  rfl

/-- C5 amended witness: the fixture tree with one html leaf below the root
has no plain-text part, and the extractor returns none on it. -/
theorem extract_no_match_none_witness : extractPlainText t5wFx = none :=
  extract_no_match_none t5wFx rfl
    (fun d q hq => by
      match d with
      | 0 =>
        simp [subsAtDepth, t5wFx, MessagePart.parts] at hq
        subst hq
        rfl
      | Nat.succ d2 =>
        have he : subsAtDepth (d2 + 1) t5wFx.parts = subsAtDepth d2 [] := rfl
        rw [he, subsAtDepth_nil] at hq
        exact absurd hq (List.not_mem_nil q))

/- ----- Claim C6 ----- -/

/-- C6 counterexample: for an original subject with trailing whitespace the
code prepends "Re: " and then trims, so the result is not the plain
concatenation the claim describes. -/
theorem replySubject_trailing_ws_cex :
    replySubject "Hello " = "Re: Hello" ∧ replySubject "Hello " ≠ "Re: " ++ "Hello " := by
  refine ⟨rfl, ?_⟩
  decide

/-- C6 amended: the reply subject keeps the original subject unchanged, with
its casing preserved, exactly when its lower-casing starts with "re:";
otherwise it is "Re: " prepended to the original with surrounding whitespace
trimmed from the prepended result.  The three examples of the claim hold. -/
theorem replySubject_spec (s : String) :
    (startsWithStr (jsToLower s) "re:" = false → replySubject s = jsTrim ("Re: " ++ s)) ∧
    (startsWithStr (jsToLower s) "re:" = true → replySubject s = s) ∧
    replySubject "Hello" = "Re: Hello" ∧
    replySubject "Re: Hello" = "Re: Hello" ∧
    replySubject "RE: Hello" = "RE: Hello" := by
  refine ⟨?_, ?_, rfl, rfl, rfl⟩
  · intro h
    simp [replySubject, h]
  · intro h
    simp [replySubject, h]

/-- C6 witness: the theorem applied to "Hi", whose lower-casing does not
start with "re:". -/
theorem replySubject_spec_witness :
    startsWithStr (jsToLower "Hi") "re:" = false ∧ replySubject "Hi" = jsTrim ("Re: " ++ "Hi") :=
  ⟨by decide, (replySubject_spec "Hi").1 (by decide)⟩

/- ----- Claim C7 ----- -/

/-- C7: for headers that are never present-but-empty, the References header
of the reply is the original References concatenated with the original
Message-ID, space-joined and omitting absent pieces, and In-Reply-To is the
original Message-ID exactly when present. -/
theorem references_chaining (refs mid : Option String)
    (hr : ∀ s, refs = some s → s ≠ "") (hm : ∀ s, mid = some s → s ≠ "") :
    combinedReferences refs mid =
      (match refs, mid with
       | some r, some m => some (r ++ " " ++ m)
       | none, some m => some m
       | some r, none => some r
       | none, none => none) ∧
    replyInReplyTo mid = mid := by
  cases refs with
  | none =>
    cases mid with
    | none => exact ⟨rfl, rfl⟩
    | some m =>
      have hm2 : m ≠ "" := hm m rfl
      constructor
      · simp [combinedReferences, truthyS, filterTruthy, joinWith, hm2]
      · simp [replyInReplyTo, truthyS, hm2]
  | some r =>
    have hr2 : r ≠ "" := hr r rfl
    cases mid with
    | none =>
      constructor
      · simp [combinedReferences, truthyS]
      · rfl
    | some m =>
      have hm2 : m ≠ "" := hm m rfl
      constructor
      · simp [combinedReferences, truthyS, filterTruthy, joinWith, hr2, hm2]
      · simp [replyInReplyTo, truthyS, hm2]

/-- C7 witness: References "A B" with Message-ID "C" chain to "A B C", and
In-Reply-To is the Message-ID. -/
theorem references_chaining_witness :
    combinedReferences (some "A B") (some "C") = some ("A B" ++ " " ++ "C") ∧
    replyInReplyTo (some "C") = some "C" :=
  references_chaining (some "A B") (some "C")
    (fun s hs => by cases hs; decide) (fun s hs => by cases hs; decide)

/- ----- Claim C9 ----- -/

/-- C9: the six named entities map to their literal characters, decimal and
hexadecimal references to 65 both decode to "A", an unrecognized named
entity is left unchanged, and a numeric reference whose code point cannot be
decoded (here 0x110000, beyond the Unicode range) is left unmodified; the
decoder also works inside surrounding text. -/
theorem entity_decoding_spec :
    decodeHtmlEntities "&amp;" = "&" ∧
    decodeHtmlEntities "&lt;" = "<" ∧
    decodeHtmlEntities "&gt;" = ">" ∧
    decodeHtmlEntities "&quot;" = "\"" ∧
    decodeHtmlEntities "&apos;" = String.mk ['\''] ∧
    decodeHtmlEntities "&nbsp;" = " " ∧
    decodeHtmlEntities "&#65;" = "A" ∧
    decodeHtmlEntities "&#x41;" = "A" ∧
    decodeHtmlEntities "&foo;" = "&foo;" ∧
    decodeHtmlEntities "&#1114112;" = "&#1114112;" ∧
    decodeHtmlEntities "a &amp; b" = "a & b" := by
  decide

/- ----- Claim C10 ----- -/

set_option maxRecDepth 100000 in
/-- C10: every string argument read through getString is trimmed and then
stripped of trailing backslashes, and non-string, empty, or whitespace-only
values are absent; in the create_draft_reply fixture the caller-supplied
body "Hi there" followed by two backslashes reaches the outgoing draft call
as "Hi there", silently altered, inside the base64url-encoded MIME text. -/
theorem getString_normalization :
    (∀ s : String, getString (Json.str s) =
      (if jsTrim s == "" then none else some (dropTrailingBackslashes (jsTrim s)))) ∧
    getString (Json.num 5) = none ∧
    getString Json.null = none ∧
    getString (Json.bool true) = none ∧
    getString (Json.str "") = none ∧
    getString (Json.str "   ") = none ∧
    getString (Json.str "  hi  ") = some "hi" ∧
    getString (Json.str "Hi there\\\\") = some "Hi there" ∧
    createDraftReply draftArgsFx draftEnvFx draftOracleFx =
      (textResult (jsonStringify draftRespFx),
       [HttpCall.mk "GET"
          ("https://gmail.googleapis.com/gmail/v1/users/me/messages/m123?format=metadata" ++
           "&metadataHeaders=From%2CReply-To%2CSubject%2CMessage-ID%2CReferences")
          (some "tok789") none none,
        HttpCall.mk "POST" "https://gmail.googleapis.com/gmail/v1/users/me/drafts"
          (some "tok789") (some "application/json")
          (some (jsonStringify (jObj
            [("message", jObj
              [("raw", Json.str (base64UrlEncode (buildReplyMime
                 (ReplyHeaders.mk "a@b.c" "Re: Hello" (some "<m1>") (some "<m1>") "Hi there")))),
               ("threadId", Json.str "t1")])])))]) := by
  refine ⟨fun s => rfl, rfl, rfl, rfl, rfl, rfl, rfl, rfl, rfl⟩

/- ----- Claim C1 ----- -/

/-- C1 counterexample: for the unknown name "unknown_tool" the request
handler throws (modelled as Except.error) with message "Unknown tool:
unknown_tool"; no ToolResult envelope is returned by repository code, so the
claim that the dispatcher returns a Failure result envelope and never raises
fails at this input. -/
theorem callTool_unknown_cex :
    callTool "2026-01-01T00:00:00.000Z" "unknown_tool" [] envNoneFx oracleErrFx =
      Except.error "Unknown tool: unknown_tool" ∧
    (callTool "2026-01-01T00:00:00.000Z" "unknown_tool" [] envNoneFx oracleErrFx).isOk = false :=
  ⟨rfl, rfl⟩

/-- C1 amended: for every name outside the catalog (get_time and the five
gmail tools), the handler throws an Error carrying "Unknown tool: " and the
name; it is the external protocol layer, not repository code, that converts
this exception into an error response for the caller. -/
theorem callTool_unknown_throws (now name : String) (args : Args) (env : Env)
    (oracle : HttpOracle) (h : name ∉ catalogNames) :
    callTool now name args env oracle = Except.error ("Unknown tool: " ++ name) := by
  simp only [catalogNames, List.mem_cons, List.not_mem_nil, or_false, not_or] at h
  obtain ⟨h1, h2, h3, h4, h5, h6⟩ := h
  simp [callTool, handleGmailTool, h1, h2, h3, h4, h5, h6]

/-- C1 witness: "unknown_tool" is outside the catalog and the theorem applies
to it. -/
theorem callTool_unknown_throws_witness :
    "unknown_tool" ∉ catalogNames ∧
    callTool "2026-01-01T00:00:00.000Z" "unknown_tool" [("x", Json.num 1)] envNoneFx oracleErrFx =
      Except.error ("Unknown tool: " ++ "unknown_tool") :=
  ⟨by decide,
   callTool_unknown_throws "2026-01-01T00:00:00.000Z" "unknown_tool" [("x", Json.num 1)]
     envNoneFx oracleErrFx (by decide)⟩

/- ----- Claim C2 ----- -/

/-- C2: when no accessToken argument is supplied and the environment has no
access token, get_unread_emails returns the Failure envelope carrying the
OAuth remediation help text (which references gmail_get_auth_url and
gmail_exchange_code) and issues no HTTP call, for every oracle; the token
lookup itself is a total function and never throws. -/
theorem getUnread_missing_token (args : Args) (env : Env) (oracle : HttpOracle)
    (ha : argsGet args "accessToken" = Json.null)
    (he : env.googleAccessToken = none) :
    handleGmailTool "get_unread_emails" args env oracle =
      (some (errorResult getAuthHelpText (getAuthEnvStatus env)), []) ∧
    strContains getAuthHelpText "gmail_get_auth_url" = true ∧
    strContains getAuthHelpText "gmail_exchange_code" = true := by
  refine ⟨?_, rfl, rfl⟩
  have htok : getAccessToken args env = none := by
    unfold getAccessToken
    rw [ha, he]
    rfl
  simp [handleGmailTool, getUnreadEmails, htok, truthyS]

/-- C2 witness: the theorem applied to empty arguments, the empty
environment and the throwing oracle. -/
theorem getUnread_missing_token_witness :
    handleGmailTool "get_unread_emails" [] envNoneFx oracleErrFx =
      (some (errorResult getAuthHelpText (getAuthEnvStatus envNoneFx)), []) ∧
    strContains getAuthHelpText "gmail_get_auth_url" = true ∧
    strContains getAuthHelpText "gmail_exchange_code" = true :=
  getUnread_missing_token [] envNoneFx oracleErrFx rfl rfl

/- ----- Claim C3 ----- -/

set_option maxRecDepth 100000 in
/-- C3 counterexample: with GOOGLE_REDIRECT_URI set in the environment and a
different redirectUri argument supplied, the authorization URL carries the
environment value in redirect_uri and the argument value appears nowhere:
the environment takes precedence, refuting the claim that the per-call
argument does. -/
theorem authUrl_redirect_cex :
    gmailGetAuthUrl authArgsFx authEnvFx = textResult authUrlCexExpected ∧
    strContains authUrlCexExpected "env.example" = true ∧
    strContains authUrlCexExpected "arg.example" = false :=
  ⟨rfl, rfl, rfl⟩

/-- C3 amended: whenever the redirect-URI environment value is set and
non-empty, the gmail_get_auth_url branch resolves the redirect URI to the
environment value and ignores the redirectUri argument entirely: supplying
any redirectUri argument leaves the result unchanged.  The per-call argument
is only a fallback used when the environment value is absent or empty. -/
theorem authUrl_redirect_env_precedence (args : Args) (env : Env) (r : String)
    (hr : env.googleRedirectUri = some r) (hne : r ≠ "") (v : Json) :
    jsOrStr env.googleRedirectUri (getString (argsGet args "redirectUri")) = some r ∧
    gmailGetAuthUrl (("redirectUri", v) :: args) env = gmailGetAuthUrl args env := by
  have hres : ∀ a2 : Args,
      jsOrStr env.googleRedirectUri (getString (argsGet a2 "redirectUri")) = some r := by
    intro a2
    rw [hr]
    simp [jsOrStr, truthyS, hne]
  refine ⟨hres args, ?_⟩
  have hscope : argsGet (("redirectUri", v) :: args) "scope" = argsGet args "scope" := by
    simp [argsGet, List.find?]
  have haccess : argsGet (("redirectUri", v) :: args) "accessType" = argsGet args "accessType" := by
    simp [argsGet, List.find?]
  have hprompt : argsGet (("redirectUri", v) :: args) "prompt" = argsGet args "prompt" := by
    simp [argsGet, List.find?]
  unfold gmailGetAuthUrl
  rw [hres (("redirectUri", v) :: args), hres args, hscope, haccess, hprompt]

/-- C3 amended witness: the theorem applied to the counterexample fixture
environment, showing the resolution picks the environment value and that an
arbitrary extra redirectUri argument does not change the result. -/
theorem authUrl_redirect_env_precedence_witness :
    jsOrStr authEnvFx.googleRedirectUri (getString (argsGet authArgsFx "redirectUri")) =
      some "https://env.example/cb" ∧
    gmailGetAuthUrl (("redirectUri", Json.str "https://other.example") :: authArgsFx) authEnvFx =
      gmailGetAuthUrl authArgsFx authEnvFx :=
  authUrl_redirect_env_precedence authArgsFx authEnvFx "https://env.example/cb" rfl
    (by decide) (Json.str "https://other.example")

/- ----- Claim C8: base64url round trip ----- -/

theorem charSextet_sextetChar : ∀ n, n < 64 → charSextet (sextetChar n) = some n := by
  decide

theorem sextetChar_ne_eq : ∀ n, n < 64 → sextetChar n ≠ '=' := by
  decide

theorem unUrl_url_sextet : ∀ n, n < 64 →
    unUrlSafeChar (urlSafeChar (sextetChar n)) = sextetChar n := by
  decide

theorem urlSafeChar_eq_iff (c : Char) : (urlSafeChar c = '=') ↔ (c = '=') := by
  unfold urlSafeChar
  split
  · rename_i h
    subst h
    constructor
    · intro h2
      exact absurd h2 (by decide)
    · intro h2
      exact absurd h2 (by decide)
  · split
    · rename_i h
      subst h
      constructor
      · intro h2
        exact absurd h2 (by decide)
      · intro h2
        exact absurd h2 (by decide)
    · exact Iff.rfl

theorem b64_quads_roundtrip : ∀ bs : List Nat, (∀ b ∈ bs, b < 256) →
    b64DecodeQuads (b64EncodeChunks bs) = bs
  | [], _ => rfl
  | [b1], h => by
    have hb : b1 < 256 := h b1 (by simp)
    have e1 : b64EncodeChunks [b1] = [sextetChar (b1 / 4), sextetChar (b1 % 4 * 16), '=', '='] := rfl
    rw [e1]
    simp only [b64DecodeQuads, if_pos rfl,
      charSextet_sextetChar (b1 / 4) (by omega),
      charSextet_sextetChar (b1 % 4 * 16) (by omega), Option.getD_some]
    simp
    omega
  | [b1, b2], h => by
    have hb1 : b1 < 256 := h b1 (by simp)
    have hb2 : b2 < 256 := h b2 (by simp)
    have e1 : b64EncodeChunks [b1, b2] =
        [sextetChar (b1 / 4), sextetChar (b1 % 4 * 16 + b2 / 16), sextetChar (b2 % 16 * 4), '='] := rfl
    rw [e1]
    simp only [b64DecodeQuads, if_neg (sextetChar_ne_eq (b2 % 16 * 4) (by omega)), if_pos rfl,
      charSextet_sextetChar (b1 / 4) (by omega),
      charSextet_sextetChar (b1 % 4 * 16 + b2 / 16) (by omega),
      charSextet_sextetChar (b2 % 16 * 4) (by omega), Option.getD_some]
    simp
    constructor
    · omega
    · omega
  | b1 :: b2 :: b3 :: rest, h => by
    have hb1 : b1 < 256 := h b1 (by simp)
    have hb2 : b2 < 256 := h b2 (by simp)
    have hb3 : b3 < 256 := h b3 (by simp)
    have ih := b64_quads_roundtrip rest (fun b hb => h b (by simp [hb]))
    have e1 : b64EncodeChunks (b1 :: b2 :: b3 :: rest) =
        sextetChar (b1 / 4) :: sextetChar (b1 % 4 * 16 + b2 / 16) ::
          sextetChar (b2 % 16 * 4 + b3 / 64) :: sextetChar (b3 % 64) :: b64EncodeChunks rest := rfl
    rw [e1]
    simp only [b64DecodeQuads,
      if_neg (sextetChar_ne_eq (b2 % 16 * 4 + b3 / 64) (by omega)),
      if_neg (sextetChar_ne_eq (b3 % 64) (by omega)),
      charSextet_sextetChar (b1 / 4) (by omega),
      charSextet_sextetChar (b1 % 4 * 16 + b2 / 16) (by omega),
      charSextet_sextetChar (b2 % 16 * 4 + b3 / 64) (by omega),
      charSextet_sextetChar (b3 % 64) (by omega), Option.getD_some]
    have h1 : b1 / 4 * 4 + (b1 % 4 * 16 + b2 / 16) / 16 = b1 := by omega
    have h2 : (b1 % 4 * 16 + b2 / 16) % 16 * 16 + (b2 % 16 * 4 + b3 / 64) / 4 = b2 := by omega
    have h3 : (b2 % 16 * 4 + b3 / 64) % 4 * 64 + b3 % 64 = b3 := by omega
    rw [h1, h2, h3, ih]

theorem b64Enc_mem : ∀ bs : List Nat, (∀ b ∈ bs, b < 256) →
    ∀ c ∈ b64EncodeChunks bs, (∃ n, n < 64 ∧ c = sextetChar n) ∨ c = '='
  | [], _ => by intro c hc; simp [b64EncodeChunks] at hc
  | [b1], h => by
    have hb : b1 < 256 := h b1 (by simp)
    intro c hc
    simp only [b64EncodeChunks, List.mem_cons, List.not_mem_nil, or_false] at hc
    rcases hc with rfl | rfl | rfl | rfl
    · exact Or.inl ⟨b1 / 4, by omega, rfl⟩
    · exact Or.inl ⟨b1 % 4 * 16, by omega, rfl⟩
    · exact Or.inr rfl
    · exact Or.inr rfl
  | [b1, b2], h => by
    have hb1 : b1 < 256 := h b1 (by simp)
    have hb2 : b2 < 256 := h b2 (by simp)
    intro c hc
    simp only [b64EncodeChunks, List.mem_cons, List.not_mem_nil, or_false] at hc
    rcases hc with rfl | rfl | rfl | rfl
    · exact Or.inl ⟨b1 / 4, by omega, rfl⟩
    · exact Or.inl ⟨b1 % 4 * 16 + b2 / 16, by omega, rfl⟩
    · exact Or.inl ⟨b2 % 16 * 4, by omega, rfl⟩
    · exact Or.inr rfl
  | b1 :: b2 :: b3 :: rest, h => by
    have hb1 : b1 < 256 := h b1 (by simp)
    have hb2 : b2 < 256 := h b2 (by simp)
    have hb3 : b3 < 256 := h b3 (by simp)
    have ih := b64Enc_mem rest (fun b hb => h b (by simp [hb]))
    intro c hc
    have e1 : b64EncodeChunks (b1 :: b2 :: b3 :: rest) =
        sextetChar (b1 / 4) :: sextetChar (b1 % 4 * 16 + b2 / 16) ::
          sextetChar (b2 % 16 * 4 + b3 / 64) :: sextetChar (b3 % 64) :: b64EncodeChunks rest := rfl
    rw [e1] at hc
    simp only [List.mem_cons] at hc
    rcases hc with rfl | rfl | rfl | rfl | hc
    · exact Or.inl ⟨b1 / 4, by omega, rfl⟩
    · exact Or.inl ⟨b1 % 4 * 16 + b2 / 16, by omega, rfl⟩
    · exact Or.inl ⟨b2 % 16 * 4 + b3 / 64, by omega, rfl⟩
    · exact Or.inl ⟨b3 % 64, by omega, rfl⟩
    · exact ih c hc

theorem mem_stripTrailingEq {c : Char} {l : List Char} (h : c ∈ stripTrailingEq l) : c ∈ l := by
  unfold stripTrailingEq at h
  rw [List.mem_reverse] at h
  have hsub : (l.reverse.dropWhile (fun c => c == '=')).Sublist l.reverse :=
    List.dropWhile_sublist _
  have := hsub.mem h
  rwa [List.mem_reverse] at this

theorem dropWhile_eq_self_of {p : Char → Bool} : ∀ l : List Char, (∀ x ∈ l, p x = false) →
    l.dropWhile p = l
  | [], _ => rfl
  | a :: t, h => by
    rw [List.dropWhile_cons, if_neg (by simp [h a (by simp)])]

theorem strip_append (xs ys : List Char) (h : ∀ x ∈ xs, x ≠ '=') :
    stripTrailingEq (xs ++ ys) = xs ++ stripTrailingEq ys := by
  unfold stripTrailingEq
  rw [List.reverse_append, List.dropWhile_append]
  by_cases he : (ys.reverse.dropWhile (fun c => c == '=')).isEmpty
  · rw [if_pos he]
    rw [List.isEmpty_iff] at he
    rw [he, List.reverse_nil, List.append_nil]
    rw [dropWhile_eq_self_of xs.reverse (by
      intro x hx
      rw [List.mem_reverse] at hx
      simp [h x hx])]
    rw [List.reverse_reverse]
  · rw [if_neg he]
    rw [List.reverse_append, List.reverse_reverse]

theorem strip_pad_restore : ∀ bs : List Nat, (∀ b ∈ bs, b < 256) →
    padTo4 (stripTrailingEq (b64EncodeChunks bs)) = b64EncodeChunks bs
  | [], _ => rfl
  | [b1], h => by
    have hb : b1 < 256 := h b1 (by simp)
    have e1 : b64EncodeChunks [b1] =
        [sextetChar (b1 / 4), sextetChar (b1 % 4 * 16)] ++ ['=', '='] := rfl
    rw [e1, strip_append _ _ (by
      intro x hx
      simp only [List.mem_cons, List.not_mem_nil, or_false] at hx
      rcases hx with rfl | rfl
      · exact sextetChar_ne_eq (b1 / 4) (by omega)
      · exact sextetChar_ne_eq (b1 % 4 * 16) (by omega))]
    rw [show stripTrailingEq ['=', '='] = [] from rfl, List.append_nil]
    simp [padTo4]
  | [b1, b2], h => by
    have hb1 : b1 < 256 := h b1 (by simp)
    have hb2 : b2 < 256 := h b2 (by simp)
    have e1 : b64EncodeChunks [b1, b2] =
        [sextetChar (b1 / 4), sextetChar (b1 % 4 * 16 + b2 / 16), sextetChar (b2 % 16 * 4)] ++
          ['='] := rfl
    rw [e1, strip_append _ _ (by
      intro x hx
      simp only [List.mem_cons, List.not_mem_nil, or_false] at hx
      rcases hx with rfl | rfl | rfl
      · exact sextetChar_ne_eq (b1 / 4) (by omega)
      · exact sextetChar_ne_eq (b1 % 4 * 16 + b2 / 16) (by omega)
      · exact sextetChar_ne_eq (b2 % 16 * 4) (by omega))]
    rw [show stripTrailingEq ['='] = [] from rfl, List.append_nil]
    simp [padTo4]
  | b1 :: b2 :: b3 :: rest, h => by
    have hb1 : b1 < 256 := h b1 (by simp)
    have hb2 : b2 < 256 := h b2 (by simp)
    have hb3 : b3 < 256 := h b3 (by simp)
    have ih := strip_pad_restore rest (fun b hb => h b (by simp [hb]))
    have e1 : b64EncodeChunks (b1 :: b2 :: b3 :: rest) =
        [sextetChar (b1 / 4), sextetChar (b1 % 4 * 16 + b2 / 16),
         sextetChar (b2 % 16 * 4 + b3 / 64), sextetChar (b3 % 64)] ++ b64EncodeChunks rest := rfl
    rw [e1, strip_append _ _ (by
      intro x hx
      simp only [List.mem_cons, List.not_mem_nil, or_false] at hx
      rcases hx with rfl | rfl | rfl | rfl
      · exact sextetChar_ne_eq (b1 / 4) (by omega)
      · exact sextetChar_ne_eq (b1 % 4 * 16 + b2 / 16) (by omega)
      · exact sextetChar_ne_eq (b2 % 16 * 4 + b3 / 64) (by omega)
      · exact sextetChar_ne_eq (b3 % 64) (by omega))]
    unfold padTo4 at ih ⊢
    simp only [List.length_append, List.length_cons, List.length_nil]
    have hlen : ∀ L : Nat, (4 + L + 3) / 4 * 4 - (4 + L) = (L + 3) / 4 * 4 - L := by
      intro L
      omega
    rw [List.append_assoc]
    rw [show (0 + 1 + 1 + 1 + 1 + (stripTrailingEq (b64EncodeChunks rest)).length) =
        4 + (stripTrailingEq (b64EncodeChunks rest)).length by omega]
    rw [hlen]
    rw [ih]

theorem utf8EncodeChar_bytes_lt (n : Nat) (h : n < 0x110000) :
    ∀ b ∈ utf8EncodeChar n, b < 256 := by
  intro b hb
  unfold utf8EncodeChar at hb
  by_cases h1 : n < 0x80
  · rw [if_pos h1] at hb
    simp at hb
    omega
  · rw [if_neg h1] at hb
    by_cases h2 : n < 0x800
    · rw [if_pos h2] at hb
      simp at hb
      rcases hb with rfl | rfl <;> omega
    · rw [if_neg h2] at hb
      by_cases h3 : n < 0x10000
      · rw [if_pos h3] at hb
        simp at hb
        rcases hb with rfl | rfl | rfl <;> omega
      · rw [if_neg h3] at hb
        simp at hb
        rcases hb with rfl | rfl | rfl | rfl <;> omega

theorem utf8EncodeChar_length_pos (n : Nat) : 1 ≤ (utf8EncodeChar n).length := by
  unfold utf8EncodeChar
  by_cases h1 : n < 0x80
  · simp [h1]
  · by_cases h2 : n < 0x800
    · simp [h1, h2]
    · by_cases h3 : n < 0x10000
      · simp [h1, h2, h3]
      · simp [h1, h2, h3]

theorem utf8Encode_bytes_lt : ∀ cs : List Char, ∀ b ∈ utf8Encode cs, b < 256
  | [] => by simp [utf8Encode]
  | c :: cs => by
    intro b hb
    have hv : c.toNat < 0xD800 ∨ (0xDFFF < c.toNat ∧ c.toNat < 0x110000) := c.valid
    have hlt : c.toNat < 0x110000 := by omega
    simp only [utf8Encode, List.mem_append] at hb
    rcases hb with hb | hb
    · exact utf8EncodeChar_bytes_lt c.toNat hlt b hb
    · exact utf8Encode_bytes_lt cs b hb

theorem utf8_step1 (f n : Nat) (h : n < 0x80) (tl : List Nat) :
    utf8DecodeLossyF (f + 1) (n :: tl) = Char.ofNat n :: utf8DecodeLossyF f tl := by
  simp only [utf8DecodeLossyF, if_pos h]

theorem utf8_step2 (f n : Nat) (h1 : 0x80 ≤ n) (h2 : n < 0x800) (tl : List Nat) :
    utf8DecodeLossyF (f + 1) ((0xC0 + n / 64) :: (0x80 + n % 64) :: tl) =
      Char.ofNat n :: utf8DecodeLossyF f tl := by
  have ha : ¬ (0xC0 + n / 64 < 0x80) := by omega
  have hb : ¬ (0xC0 + n / 64 < 0xC2) := by omega
  have hc : 0xC0 + n / 64 < 0xE0 := by omega
  have hcont : isContByte (0x80 + n % 64) = true := by
    simp [isContByte]
    omega
  simp only [utf8DecodeLossyF, if_neg ha, if_neg hb, if_pos hc, hcont, if_pos]
  have : 0xC0 + n / 64 - 0xC0 = n / 64 := by omega
  rw [this]
  have : 0x80 + n % 64 - 0x80 = n % 64 := by omega
  rw [this]
  have : n / 64 * 64 + n % 64 = n := by omega
  rw [this]

theorem utf8_step3 (f n : Nat) (h1 : 0x800 ≤ n) (h2 : n < 0x10000)
    (h3 : n < 0xD800 ∨ 0xE000 ≤ n) (tl : List Nat) :
    utf8DecodeLossyF (f + 1)
      ((0xE0 + n / 4096) :: (0x80 + n / 64 % 64) :: (0x80 + n % 64) :: tl) =
      Char.ofNat n :: utf8DecodeLossyF f tl := by
  have ha : ¬ (0xE0 + n / 4096 < 0x80) := by omega
  have hb : ¬ (0xE0 + n / 4096 < 0xC2) := by omega
  have hc : ¬ (0xE0 + n / 4096 < 0xE0) := by omega
  have hd : 0xE0 + n / 4096 < 0xF0 := by omega
  have hcont : (isContByte (0x80 + n / 64 % 64) && isContByte (0x80 + n % 64)) = true := by
    simp [isContByte]
    omega
  simp only [utf8DecodeLossyF, if_neg ha, if_neg hb, if_neg hc, if_pos hd, hcont, if_pos]
  have hval : (0xE0 + n / 4096 - 0xE0) * 4096 + (0x80 + n / 64 % 64 - 0x80) * 64 +
      (0x80 + n % 64 - 0x80) = n := by omega
  rw [hval]
  have hcond : (0x800 ≤ n && (decide (n < 0xD800) || decide (0xE000 ≤ n))) = true := by
    rcases h3 with h3 | h3 <;> simp <;> omega
  simp only [hcond, if_pos]

theorem utf8_step4 (f n : Nat) (h1 : 0x10000 ≤ n) (h2 : n < 0x110000) (tl : List Nat) :
    utf8DecodeLossyF (f + 1)
      ((0xF0 + n / 0x40000) :: (0x80 + n / 4096 % 64) ::
        (0x80 + n / 64 % 64) :: (0x80 + n % 64) :: tl) =
      Char.ofNat n :: utf8DecodeLossyF f tl := by
  have ha : ¬ (0xF0 + n / 0x40000 < 0x80) := by omega
  have hb : ¬ (0xF0 + n / 0x40000 < 0xC2) := by omega
  have hc : ¬ (0xF0 + n / 0x40000 < 0xE0) := by omega
  have hd : ¬ (0xF0 + n / 0x40000 < 0xF0) := by omega
  have he : 0xF0 + n / 0x40000 < 0xF5 := by omega
  have hcont : (isContByte (0x80 + n / 4096 % 64) && isContByte (0x80 + n / 64 % 64) &&
      isContByte (0x80 + n % 64)) = true := by
    simp [isContByte]
    omega
  simp only [utf8DecodeLossyF, if_neg ha, if_neg hb, if_neg hc, if_neg hd, if_pos he,
    hcont, if_pos]
  have hval : (0xF0 + n / 0x40000 - 0xF0) * 0x40000 + (0x80 + n / 4096 % 64 - 0x80) * 4096 +
      (0x80 + n / 64 % 64 - 0x80) * 64 + (0x80 + n % 64 - 0x80) = n := by omega
  rw [hval]
  have hcond : (0x10000 ≤ n && decide (n < 0x110000)) = true := by
    simp
    omega
  simp only [hcond, if_pos]

theorem utf8_roundtrip_fuel : ∀ fuel (cs : List Char), (utf8Encode cs).length ≤ fuel →
    utf8DecodeLossyF fuel (utf8Encode cs) = cs := by
  intro fuel
  induction fuel with
  | zero =>
    intro cs h
    cases cs with
    | nil => rfl
    | cons c cs2 =>
      exfalso
      have := utf8EncodeChar_length_pos c.toNat
      simp only [utf8Encode, List.length_append] at h
      omega
  | succ f ih =>
    intro cs h
    cases cs with
    | nil => rfl
    | cons c cs2 =>
      have hv : c.toNat < 0xD800 ∨ (0xDFFF < c.toNat ∧ c.toNat < 0x110000) := c.valid
      have hlen : (utf8Encode cs2).length ≤ f := by
        have := utf8EncodeChar_length_pos c.toNat
        simp only [utf8Encode, List.length_append] at h
        omega
      have hofn : Char.ofNat c.toNat = c := Char.ofNat_toNat c
      by_cases h1 : c.toNat < 0x80
      · have he : utf8Encode (c :: cs2) = c.toNat :: utf8Encode cs2 := by
          simp [utf8Encode, utf8EncodeChar, h1]
        rw [he, utf8_step1 f c.toNat h1 _, hofn, ih cs2 hlen]
      · by_cases h2 : c.toNat < 0x800
        · have he : utf8Encode (c :: cs2) =
              (0xC0 + c.toNat / 64) :: (0x80 + c.toNat % 64) :: utf8Encode cs2 := by
            simp [utf8Encode, utf8EncodeChar, h1, h2]
          rw [he, utf8_step2 f c.toNat (by omega) h2 _, hofn, ih cs2 hlen]
        · by_cases h3 : c.toNat < 0x10000
          · have he : utf8Encode (c :: cs2) =
                (0xE0 + c.toNat / 4096) :: (0x80 + c.toNat / 64 % 64) ::
                  (0x80 + c.toNat % 64) :: utf8Encode cs2 := by
              simp [utf8Encode, utf8EncodeChar, h1, h2, h3]
            have h3alt : c.toNat < 0xD800 ∨ 0xE000 ≤ c.toNat := by
              rcases hv with hh | ⟨hh1, hh2⟩
              · exact Or.inl hh
              · exact Or.inr (by omega)
            rw [he, utf8_step3 f c.toNat (by omega) h3 h3alt _, hofn, ih cs2 hlen]
          · have he : utf8Encode (c :: cs2) =
                (0xF0 + c.toNat / 0x40000) :: (0x80 + c.toNat / 4096 % 64) ::
                  (0x80 + c.toNat / 64 % 64) :: (0x80 + c.toNat % 64) :: utf8Encode cs2 := by
              simp [utf8Encode, utf8EncodeChar, h1, h2, h3]
            have h4 : c.toNat < 0x110000 := by
              rcases hv with hh | ⟨hh1, hh2⟩
              · omega
              · omega
            rw [he, utf8_step4 f c.toNat (by omega) h4 _, hofn, ih cs2 hlen]

theorem dropWhileEq_map : ∀ l : List Char,
    (l.map urlSafeChar).dropWhile (fun c => c == '=') =
      (l.dropWhile (fun c => c == '=')).map urlSafeChar
  | [] => rfl
  | a :: t => by
    by_cases ha : a = '='
    · subst ha
      simp only [List.map_cons, List.dropWhile_cons]
      rw [if_pos (by rfl), if_pos (by rfl)]
      exact dropWhileEq_map t
    · have hu : urlSafeChar a ≠ '=' := fun hcontra => ha ((urlSafeChar_eq_iff a).mp hcontra)
      simp only [List.map_cons, List.dropWhile_cons]
      rw [if_neg (by simp [hu]), if_neg (by simp [ha])]
      rfl

theorem strip_map (l : List Char) :
    stripTrailingEq (l.map urlSafeChar) = (stripTrailingEq l).map urlSafeChar := by
  unfold stripTrailingEq
  rw [← List.map_reverse, dropWhileEq_map, List.map_reverse]

theorem map_id_of_mem {f : Char → Char} : ∀ l : List Char, (∀ c ∈ l, f c = c) → l.map f = l
  | [], _ => rfl
  | a :: t, h => by
    rw [List.map_cons, h a (by simp), map_id_of_mem t (fun c hc => h c (by simp [hc]))]

theorem clean_of_enc (bs : List Nat) (h : ∀ b ∈ bs, b < 256) :
    cleanB64 (b64EncodeChunks bs) = b64EncodeChunks bs := by
  unfold cleanB64
  apply List.filter_eq_self.mpr
  intro c hc
  rcases b64Enc_mem bs h c hc with ⟨n, hn, rfl⟩ | rfl
  · simp [charSextet_sextetChar n hn]
  · simp

/-- C8: for every string, base64UrlDecode inverts base64UrlEncode: the UTF-8
bytes are recovered from the base64 quads, the minus and underscore
substitutions are undone, the stripped padding is restored by padEnd, and
the bytes decode back to the original characters. -/
theorem base64url_roundtrip (s : String) : base64UrlDecode (base64UrlEncode s) = s := by
  have hbytes := utf8Encode_bytes_lt s.data
  show String.mk (utf8DecodeLossy (b64DecodeQuads (cleanB64 (padTo4
    ((stripTrailingEq ((b64EncodeChunks (utf8Encode s.data)).map urlSafeChar)).map
      unUrlSafeChar))))) = s
  rw [strip_map, List.map_map]
  rw [map_id_of_mem (stripTrailingEq (b64EncodeChunks (utf8Encode s.data))) (by
    intro c hc
    rcases b64Enc_mem (utf8Encode s.data) hbytes c (mem_stripTrailingEq hc) with
      ⟨n, hn, rfl⟩ | rfl
    · exact unUrl_url_sextet n hn
    · rfl)]
  rw [strip_pad_restore (utf8Encode s.data) hbytes]
  rw [clean_of_enc (utf8Encode s.data) hbytes]
  rw [b64_quads_roundtrip (utf8Encode s.data) hbytes]
  show String.mk (utf8DecodeLossyF (utf8Encode s.data).length (utf8Encode s.data)) = s
  rw [utf8_roundtrip_fuel (utf8Encode s.data).length s.data (Nat.le_refl _)]
